import Mathlib

/-!
Shallow embedding of the core of `jellyplex-sync` (src/src/jellyplex/):
the naming-convention engines (`jellyfin.py`, `plex.py`, `library.py`) and
the reconciliation / hardlink-synchronization engine (`sync.py`).

Strings are modelled as Lean `String` / `List Char`; the Python regular
expressions used by the source are compiled by hand into deterministic
scanners.  Every scanner carries a comment quoting the regex it embeds and,
where Python's backtracking could in principle explore several alternatives,
a justification of why the scanner's deterministic choice is the one the
backtracking engine would make.  Character classes are embedded in their
ASCII fragment (the repository's own fixtures and tests are ASCII).

The filesystem is modelled abstractly: directory listings become lists,
inode identity becomes explicit `sameFile` / stale-candidate data, and the
mutating operations of `sync.py` become values of small action types, so
that theorems can talk about which mutations a run performs.
-/

namespace Jellyplex

/-! ## Python character classes and string helpers -/

/-- Python `\s` (ASCII fragment): space, tab, newline, carriage return,
vertical tab, form feed. -/
def pyWS (c : Char) : Bool :=
  c = ' ' || c = '\t' || c = '\n' || c = '\r' || c = '\x0b' || c = '\x0c'

/-- Regex class `[a-zA-Z]`. -/
def asciiLetter (c : Char) : Bool :=
  ('a' ≤ c && c ≤ 'z') || ('A' ≤ c && c ≤ 'Z')

/-- Python `\d` (ASCII fragment). -/
def asciiDigit (c : Char) : Bool :=
  '0' ≤ c && c ≤ '9'

/-- Python `\w` (ASCII fragment): letters, digits, underscore. -/
def wordChar (c : Char) : Bool :=
  asciiLetter c || asciiDigit c || c = '_'

/-- Regex `.` without `DOTALL`: any character except newline. -/
def dotChar (c : Char) : Bool :=
  c ≠ '\n'

/-- Python `$` for a pattern applied with `re.match`: matches at the end of
the string, or just before a single final newline. `rest` is the input
remaining after the pattern body. -/
def dollarEnd (rest : List Char) : Bool :=
  rest = [] || rest = ['\n']

/-- Python `str.strip()` (ASCII whitespace fragment). -/
def pyStrip (s : String) : String :=
  ⟨(s.data.dropWhile pyWS).reverse.dropWhile pyWS |>.reverse⟩

/-- Python `str.rstrip("id")`: drop trailing characters drawn from `{i, d}`. -/
def rstripID (s : String) : String :=
  ⟨(s.data.reverse.dropWhile (fun c => c = 'i' || c = 'd')).reverse⟩

/-- Python `str.split(sep, 1)` for a single-character separator: split at the
first occurrence; if the separator does not occur the second component is
`none`. -/
def splitFirst (sep : Char) (s : String) : String × Option String :=
  match s.data.span (· ≠ sep) with
  | (l, []) => (⟨l⟩, none)
  | (l, _ :: r) => (⟨l⟩, some ⟨r⟩)

/-- Python `str.split(" ")`: split on every single space (empty fields
kept); `cur` is the current field in reverse. -/
def pySplitSpaceAux (cur : List Char) : List Char → List String
  | [] => [⟨cur.reverse⟩]
  | c :: rest =>
    if c = ' ' then ⟨cur.reverse⟩ :: pySplitSpaceAux [] rest
    else pySplitSpaceAux (c :: cur) rest

def pySplitSpace (s : String) : List String :=
  pySplitSpaceAux [] s.data

/-- Python `str.split(" - ")` (the Convention A variant separator):
non-overlapping, left to right. -/
def splitOnDashAux (cur : List Char) : List Char → List String
  | ' ' :: '-' :: ' ' :: rest => ⟨cur.reverse⟩ :: splitOnDashAux [] rest
  | c :: rest => splitOnDashAux (c :: cur) rest
  | [] => [⟨cur.reverse⟩]

def splitOnDash (s : String) : List String :=
  splitOnDashAux [] s.data

/-- Python sets of strings are modelled as canonical lists: sorted and
duplicate-free.  `sinsert` inserts preserving canonicity; every set in the
embedding is built from `[]` by `sinsert`, so Python set equality is list
equality.  Python's unspecified set-iteration order is modelled as this
sorted order (no claim below depends on the choice). -/
def sinsert (x : String) : List String → List String
  | [] => [x]
  | y :: rest =>
    if x = y then y :: rest
    else if x < y then x :: y :: rest
    else y :: sinsert x rest

/-- Python `set(l)`. -/
def mkSet (l : List String) : List String :=
  l.foldl (fun acc x => sinsert x acc) []

/-- Python `a.union(b)` on canonical lists. -/
def sunion (a b : List String) : List String :=
  b.foldl (fun acc x => sinsert x acc) a

/-- Python truthiness of an optional string: `None` and `""` are falsy. -/
def truthy : Option String → Bool
  | none => false
  | some s => s ≠ ""

/-- `re.sub(r"\s+", " ", s)`: replace every maximal run of whitespace by a
single space.  The flag records whether the previous character was
whitespace (i.e. whether we are inside a run already emitted as `' '`). -/
def collapseWSAux : Bool → List Char → List Char
  | _, [] => []
  | prevWS, c :: rest =>
    if pyWS c then
      if prevWS then collapseWSAux true rest
      else ' ' :: collapseWSAux true rest
    else c :: collapseWSAux false rest

def collapseWS (cs : List Char) : List Char :=
  collapseWSAux false cs

/-- `pathlib.PurePath.suffix`: the last dot-suffix of a name, empty unless the
last `'.'` sits strictly inside the name (neither first nor last character). -/
def pySuffix (name : String) : String :=
  match (name.data.reverse.span (· ≠ '.')) with
  | (_, []) => ""                      -- no dot at all
  | (ext, _ :: stemRev) =>
    -- last dot found; `ext` is reversed text after it, `stemRev` reversed text before it
    if stemRev = [] then ""            -- dot is the first character (hidden file)
    else if ext = [] then ""           -- dot is the last character
    else ⟨'.' :: ext.reverse⟩

/-- `pathlib.PurePath.stem`: the name with `pySuffix` removed. -/
def pyStem (name : String) : String :=
  if pySuffix name = "" then name
  else ⟨name.data.take (name.data.length - (pySuffix name).data.length)⟩

/-- Python `str.lower()` (ASCII fragment). -/
def pyLower (s : String) : String :=
  ⟨s.data.map Char.toLower⟩

/-- Python `str.upper()` (ASCII fragment). -/
def pyUpper (s : String) : String :=
  ⟨s.data.map Char.toUpper⟩

/-! ## Data model (`library.py`) -/

/-- `ACCEPTED_VIDEO_SUFFIXES` from `library.py`. -/
def ACCEPTED_VIDEO_SUFFIXES : List String :=
  [".mkv", ".m4v", ".mp4", ".avi", ".mov", ".wmv", ".ts", ".webm"]

/-- `ACCEPTED_ASSOCIATED_SUFFIXES` from `library.py`. -/
def ACCEPTED_ASSOCIATED_SUFFIXES : List String :=
  [".srt", ".ass", ".ssa", ".sub", ".idx", ".vtt", ".edl", ".nfo"]

/-- `MovieInfo` dataclass: optional fields become `Option`; "present" in the
invariant claims means `isSome` (Python `None`-ness). -/
structure MovieInfo where
  title : String
  year : Option String := none
  provider : Option String := none
  movie_id : Option String := none
  deriving DecidableEq, Repr

/-- `VideoInfo` dataclass; Python `set[str]` becomes a canonical
(sorted, duplicate-free) `List String` — see `sinsert`. -/
structure VideoInfo where
  extension : String
  edition : Option String := none
  resolution : Option String := none
  tags : Option (List String) := none
  providers : Option (List String) := none
  deriving DecidableEq

/-- `RESOLUTION_PATTERN = re.compile(r"\d{3,4}[pi]$")`, used with `.match`:
the greedy `\d{3,4}` takes the maximal digit run capped at 4; backtracking to
3 digits only helps when the 4th character is `p`/`i`, so the match succeeds
iff the leading digit run has length 3 or 4, is followed by `p` or `i`, and
`$` accepts the rest. -/
def resolutionMatch (s : String) : Bool :=
  let (digs, rest) := s.data.span asciiDigit
  ((digs.length = 3 || digs.length = 4) &&
    match rest with
    | c :: rest' => (c = 'p' || c = 'i') && dollarEnd rest'
    | [] => false)

/-! ## Convention A (`jellyfin.py`): movie-folder patterns

`JELLYFIN_MOVIE_PATTERNS` is an ordered list of five regexes tried with
`re.match`.  Each is embedded as a deterministic scanner; the lazy
`(?P<title>.+?)` group is realised by `lazyTitle`, which tries title
prefixes of increasing length (shortest first — exactly the backtracking
order of a lazy quantifier). -/

/-- `\s+` followed by a non-whitespace continuation: the greedy run is forced
to be maximal, so we simply require a nonempty whitespace run and return the
input after it. -/
def scanWS1 (cs : List Char) : Option (List Char) :=
  let (ws, rest) := cs.span pyWS
  if ws = [] then none else some rest

/-- `\((?P<year>\d{4})\)`: `{4}` is an exact count, so this is a literal
7-character shape. -/
def scanYear : List Char → Option (String × List Char)
  | '(' :: a :: b :: c :: d :: ')' :: rest =>
    if [a, b, c, d].all asciiDigit then some (⟨[a, b, c, d]⟩, rest) else none
  | _ => none

/-- `\[(?P<provider_id>[a-zA-Z]+id-[^\]]+)\]` starting at a `[`.
The greedy `[a-zA-Z]+` takes the maximal letter run; since `i`, `d` are
letters and `-` is not, the only viable backtracking split puts the literal
`id` at the end of that run and the `-` immediately after it.  `[^\]]+`
then runs to the first `]`. Returns the group text and the rest after `]`. -/
def scanIdBlock : List Char → Option (String × List Char)
  | '[' :: rest =>
    let (run, r1) := rest.span asciiLetter
    match r1 with
    | '-' :: r2 =>
      if 3 ≤ run.length ∧ run.drop (run.length - 2) = ['i', 'd'] then
        let (val, r3) := r2.span (· ≠ ']')
        match r3 with
        | ']' :: r4 => if val ≠ [] then some (⟨run ++ '-' :: val⟩, r4) else none
        | _ => none
      else none
    | _ => none
  | _ => none

/-- Backtracking search for a lazy `^(.+?)` group followed by `tail`:
title prefixes are tried shortest-first; every title character must satisfy
`.` (i.e. must not be a newline). -/
def lazyTitleAux {α : Type} (tail : List Char → Option α) :
    List Char → List Char → Option (List Char × α)
  | _, [] => none
  | acc, c :: rest =>
    if dotChar c then
      match tail rest with
      | some a => some (acc ++ [c], a)
      | none => lazyTitleAux tail (acc ++ [c]) rest
    else none

def lazyTitle {α : Type} (tail : List Char → Option α) (cs : List Char) :
    Option (String × α) :=
  (lazyTitleAux tail [] cs).map (fun p => (⟨p.1⟩, p.2))

/-- Tail of pattern 1 after the title:
`\s+\((\d{4})\)\s* - \s*\[([a-zA-Z]+id-[^\]]+)\]` (no `$`; `re.match`
ignores what follows).  For `\s* - \s*`: the literal space before `-` must
be the final character of the maximal whitespace run after `)` (any earlier
position is followed by more whitespace, which cannot match `-`), so the
run must be nonempty with last character exactly `' '`, followed by `'-'`
and a literal `' '`, then more optional whitespace, then the id block. -/
def tailYearDashId (cs : List Char) : Option (String × String) := do
  let r1 ← scanWS1 cs
  let (year, r2) ← scanYear r1
  let (ws, r3) := r2.span pyWS
  if ws ≠ [] ∧ ws.getLast? = some ' ' then
    match r3 with
    | '-' :: ' ' :: r4 =>
      let (_, r5) := r4.span pyWS
      let (pid, _) ← scanIdBlock r5
      pure (year, pid)
    | _ => none
  else none

/-- Tail of pattern 2 after the title: `\s+\((\d{4})\)\s+\[provider_id\]`. -/
def tailYearSpId (cs : List Char) : Option (String × String) := do
  let r1 ← scanWS1 cs
  let (year, r2) ← scanYear r1
  let r3 ← scanWS1 r2
  let (pid, _) ← scanIdBlock r3
  pure (year, pid)

/-- Tail of pattern 3 after the title: `\s+\((\d{4})\)$`. -/
def tailYearEnd (cs : List Char) : Option String := do
  let r1 ← scanWS1 cs
  let (year, r2) ← scanYear r1
  if dollarEnd r2 then pure year else none

/-- Tail of pattern 4 after the title: `\s+\[provider_id\]`. -/
def tailId (cs : List Char) : Option String := do
  let r1 ← scanWS1 cs
  let (pid, _) ← scanIdBlock r1
  pure pid

/-- Pattern 5, `^(?P<title>.+?)$`: `.` cannot cross a newline and `$`
matches only at the very end or just before one final newline, so the lazy
group matches exactly when the string, after removing one trailing newline
if present, is nonempty and newline-free; the group is that core text. -/
def titleOnlyMatch (s : String) : Option String :=
  let core := if s.data.getLast? = some '\n' then s.data.dropLast else s.data
  if core ≠ [] ∧ core.all dotChar then some ⟨core⟩ else none

/-- Builds the `MovieInfo` returned by `JellyfinLibrary.parse_movie_path`
once a pattern has matched: `title.strip()`, and when a `provider_id` group
is present, `provider, movie_id = provider_id.split("-", 1)` followed by
`provider = provider.rstrip("id")`.  (The id-block scanner guarantees a
`-` is present, so `splitFirst` always finds one; the `getD ""` is dead.) -/
def jellyfinMovieFrom (title : String) (year : Option String)
    (pid : Option String) : MovieInfo :=
  match pid with
  | none => { title := pyStrip title, year := year }
  | some p =>
    let (l, r) := splitFirst '-' p
    { title := pyStrip title, year := year,
      provider := some (rstripID l), movie_id := some (r.getD "") }

/-- `JellyfinLibrary.parse_movie_path`: the five `JELLYFIN_MOVIE_PATTERNS`
tried in order, first match wins. -/
def jellyfinParseMoviePath (name : String) : Option MovieInfo :=
  let cs := name.data
  match lazyTitle tailYearDashId cs with
  | some (t, y, pid) => some (jellyfinMovieFrom t (some y) (some pid))
  | none =>
    match lazyTitle tailYearSpId cs with
    | some (t, y, pid) => some (jellyfinMovieFrom t (some y) (some pid))
    | none =>
      match lazyTitle tailYearEnd cs with
      | some (t, y) => some (jellyfinMovieFrom t (some y) none)
      | none =>
        match lazyTitle tailId cs with
        | some (t, pid) => some (jellyfinMovieFrom t none (some pid))
        | none =>
          match titleOnlyMatch name with
          | some t => some (jellyfinMovieFrom t none none)
          | none => none

/-- `JellyfinLibrary.movie_name`. -/
def jellyfinMovieName (m : MovieInfo) : String :=
  " ".intercalate
    ([m.title]
      ++ (if truthy m.year then ["(" ++ m.year.getD "" ++ ")"] else [])
      ++ (if truthy m.provider && truthy m.movie_id then
            ["[" ++ m.provider.getD "" ++ "id-" ++ m.movie_id.getD "" ++ "]"]
          else []))

/-! ## Convention A variant engine (`SninerVariantParser`) -/

/-- `([\.\-]([\w\d]+))?$` after a literal shorthand: the optional group is
tried first (greedy); its `[\w\d]+` run is forced maximal because any
shorter run leaves a word character, which `$` rejects.  On group failure
the engine falls back to matching `$` directly. Returns `some tag?` when
the whole pattern (including `$`) matches. -/
def tagOptEnd (rest : List Char) : Option (Option String) :=
  match rest with
  | [] => some none
  | c :: r2 =>
    if c = '.' || c = '-' then
      let run := r2.takeWhile wordChar
      if run ≠ [] ∧ dollarEnd (r2.dropWhile wordChar) then some (some ⟨run⟩)
      else if dollarEnd rest then some none else none
    else if dollarEnd rest then some none else none

/-- `re.compile(r"4k([\.\-]([\w\d]+))?$").match(word)` (case-sensitive). -/
def match4k (w : String) : Option (Option String) :=
  match w.data with
  | '4' :: 'k' :: rest => tagOptEnd rest
  | _ => none

/-- `re.compile(r"BD([\.\-]([\w\d]+))?$").match(word)`. -/
def matchBD (w : String) : Option (Option String) :=
  match w.data with
  | 'B' :: 'D' :: rest => tagOptEnd rest
  | _ => none

/-- `re.compile(r"DVD([\.\-]([\w\d]+))?$").match(word)`. -/
def matchDVD (w : String) : Option (Option String) :=
  match w.data with
  | 'D' :: 'V' :: 'D' :: rest => tagOptEnd rest
  | _ => none

/-- `RESOLUTION_PATTERN.match(word)`, returning `m.group(0)` (the matched
text: the digit run plus the `p`/`i`, excluding a tolerated final newline). -/
def matchBareRes (w : String) : Option String :=
  let (digs, rest) := w.data.span asciiDigit
  if digs.length = 3 || digs.length = 4 then
    match rest with
    | c :: rest' =>
      if (c = 'p' || c = 'i') && dollarEnd rest' then some ⟨digs ++ [c]⟩ else none
    | [] => none
  else none

/-- The `tags` list produced by walking `SninerVariantParser.RES_MAP` in
order and applying the first matching entry's mapping lambda
(`ResParser.mapping`); `[]` when no pattern matches. -/
def resMapTags (w : String) : List (Option String) :=
  match match4k w with
  | some tag => [some "2160p"] ++ (match tag with | some t => [some t] | none => [])
  | none =>
    match matchBD w with
    | some tag => [some "1080p"] ++ (match tag with | some t => [some t] | none => [])
    | none =>
      match matchDVD w with
      | some tag => [none, some "DVD"] ++ (match tag with | some t => [some t] | none => [])
      | none =>
        match matchBareRes w with
        | some r => [some r]
        | none => []

/-- `SninerVariantParser._match_resolution`:
`return tags[0] if tags else None, set(t for t in tags[1:] if t)`. -/
def matchResolution (w : String) : Option String × List String :=
  let tags := resMapTags w
  (match tags with | [] => none | t :: _ => t,
   mkSet (((tags.drop 1).filterMap id).filter (· ≠ "")))

/-- `SninerVariantParser.parse`. -/
def sninerParse (variant : String) (video : VideoInfo) : VideoInfo :=
  let parts := pySplitSpace variant
  let m1 := matchResolution (parts.headD "")
  let rte : Option String × List String × String :=
    if m1.1.isSome ∨ m1.2 ≠ [] then
      (m1.1, m1.2, " ".intercalate (parts.drop 1))
    else if 1 < parts.length then
      let m2 := matchResolution (parts.getLastD "")
      if m2.1.isSome ∨ m2.2 ≠ [] then
        (m2.1, m2.2, " ".intercalate parts.dropLast)
      else
        (m2.1, m2.2, variant)
    else
      (m1.1, m1.2, variant)
  let tagsU := sunion (video.tags.getD []) rte.2.1
  { extension := video.extension,
    edition := if rte.2.2 = "" then none else some rte.2.2,
    resolution := rte.1,
    tags := if tagsU = [] then none else some tagsU,
    providers := video.providers }

/-- `SimpleVariantParser._tags_to_variant`.  Python iterates the `tags`
set in unspecified order; we model that order by the sorted order.  (The
first tag whose upper-casing is `"DVD"`, `"4k"` or `"BD"` wins; note
`tag.upper()` can never equal the lower-case `"4k"`.) -/
def simpleTagsToVariant (video : VideoInfo) : List String :=
  if truthy video.resolution then [video.resolution.getD ""]
  else
    match (video.tags.getD []).find?
        (fun t => pyUpper t == "DVD" || pyUpper t == "4k" || pyUpper t == "BD") with
    | some t => [pyUpper t]
    | none => []

/-- `re.match(r"(\d{3,4})[pi]$", s, flags=re.IGNORECASE)`, returning
`m.group(1)` (the digits). -/
def resDigits (s : String) : Option String :=
  let (digs, rest) := s.data.span asciiDigit
  if digs.length = 3 || digs.length = 4 then
    match rest with
    | c :: rest' =>
      if (c = 'p' || c = 'P' || c = 'i' || c = 'I') && dollarEnd rest' then
        some ⟨digs⟩
      else none
    | [] => none
  else none

/-- `SninerVariantParser._tags_to_variant`: canonical resolutions are mapped
back to the convention's shorthand. -/
def sninerTagsToVariant (video : VideoInfo) : List String :=
  let variant := simpleTagsToVariant video
  match variant with
  | [] => []
  | v0 :: _ =>
    match resDigits v0 with
    | some res =>
      if res = "1080" then ["BD"]
      else if res = "2160" then ["4k"]
      else if res = "480" || res = "576" then ["DVD"]
      else variant
    | none => variant

/-- Python's substring test `needle in hay`. -/
def strContains (hay needle : List Char) : Bool :=
  match hay with
  | [] => needle = []
  | _ :: t => needle.isPrefixOf hay || strContains t needle

/-- `SimpleVariantParser._providers_to_jellyfin`.  Set iteration is modelled
by the sorted order (the claims below never depend on the order). -/
def providersToJellyfin (video : VideoInfo) (movieName : String) : List String :=
  (video.providers.getD []).filterMap fun p =>
    match splitFirst '-' p with
    | (_, none) => none
    | (ty, some pid) =>
      let tag := "[" ++ ty ++ "id-" ++ pid ++ "]"
      if strContains (pyLower movieName).data (pyLower tag).data then none
      else some tag

/-- `SimpleVariantParser.video_name` with the `SninerVariantParser`
override of `_tags_to_variant` (the parser `JellyfinLibrary` installs). -/
def jellyfinVideoNameFrom (movieName : String) (video : VideoInfo) : String :=
  let providerTags := providersToJellyfin video movieName
  let variantParts :=
    sninerTagsToVariant video
      ++ (if truthy video.edition then [video.edition.getD ""] else [])
  " ".intercalate
      ([movieName] ++ providerTags
        ++ (if variantParts ≠ [] then ["- " ++ " ".intercalate variantParts] else []))
    ++ video.extension

/-- `JellyfinLibrary.video_name`. -/
def jellyfinVideoName (m : MovieInfo) (v : VideoInfo) : String :=
  jellyfinVideoNameFrom (jellyfinMovieName m) v

/-- `parts[-1].strip().lstrip("[").rstrip("]")` from
`JellyfinLibrary.parse_video_path`. -/
def trimBrackets (s : String) : String :=
  ⟨(((pyStrip s).data.dropWhile (· = '[')).reverse.dropWhile (· = ']')).reverse⟩

/-- `JellyfinLibrary.parse_video_path`, as a function of the file name
(`path.stem` / `path.suffix` are computed here). -/
def jellyfinParseVideoName (fileName : String) : Option VideoInfo :=
  let baseName := pyStem fileName
  let video : VideoInfo := { extension := pySuffix fileName }
  let parts := splitOnDash baseName
  if 1 < parts.length then
    if (scanIdBlock (parts.getLastD "").data).isSome then some video
    else some (sninerParse (trimBrackets (parts.getLastD "")) video)
  else some video

/-! ## Convention B (`plex.py`) -/

/-- `PLEX_METADATA_PROVIDER = {"imdb", "tmdb", "tvdb"}`. -/
def PLEX_METADATA_PROVIDER : List String := ["imdb", "tmdb", "tvdb"]

/-- The regex class `[^}]`. -/
def notCloseBrace (c : Char) : Bool := c ≠ '}'

/-- The regex class `[^\]]`. -/
def notCloseBracket (c : Char) : Bool := c ≠ ']'

/-- `PLEX_META_BLOCK_PATTERN.findall(name)` for
`(\{([A-Za-z]+)-([^}]+)\})`: at a `{`, the greedy `[A-Za-z]+` takes the
maximal letter run (the `-` after it is not a letter, so no other split can
succeed), then `[^}]+` runs to the first `}`.  On failure the scan resumes
one character after the position that was tried, exactly like `re`'s
left-to-right scan; matches do not overlap.  Yields `(key, value, block)`
triples in order.  Recursion is by fuel so the definition is structural
(kernel-computable); every step consumes at least one character, so fuel
equal to the input length never runs out. -/
def plexMetaBlocksF : Nat → List Char → List (String × String × String)
  | 0, _ => []
  | _, [] => []
  | fuel + 1, c :: rest =>
    if c = '{' then
      match (rest.span asciiLetter).2 with
      | '-' :: r2 =>
        if (rest.span asciiLetter).1 ≠ [] then
          match (r2.span notCloseBrace).2 with
          | '}' :: r4 =>
            if (r2.span notCloseBrace).1 ≠ [] then
              (⟨(rest.span asciiLetter).1⟩, ⟨(r2.span notCloseBrace).1⟩,
                  ⟨'{' :: ((rest.span asciiLetter).1 ++ '-' :: ((r2.span notCloseBrace).1 ++ ['}']))⟩) ::
                plexMetaBlocksF fuel r4
            else plexMetaBlocksF fuel rest
          | _ => plexMetaBlocksF fuel rest
        else plexMetaBlocksF fuel rest
      | _ => plexMetaBlocksF fuel rest
    else plexMetaBlocksF fuel rest

def plexMetaBlocks (cs : List Char) : List (String × String × String) :=
  plexMetaBlocksF cs.length cs

/-- `PLEX_META_INFO_PATTERN.findall(name)` for `(\[([^]]+)\])`:
yields `(info, block)` pairs.  Fuel as in `plexMetaBlocksF`. -/
def plexInfoBlocksF : Nat → List Char → List (String × String)
  | 0, _ => []
  | _, [] => []
  | fuel + 1, c :: rest =>
    if c = '[' then
      match (rest.span notCloseBracket).2 with
      | ']' :: r2 =>
        if (rest.span notCloseBracket).1 ≠ [] then
          (⟨(rest.span notCloseBracket).1⟩, ⟨'[' :: ((rest.span notCloseBracket).1 ++ [']'])⟩) ::
            plexInfoBlocksF fuel r2
        else plexInfoBlocksF fuel rest
      | _ => plexInfoBlocksF fuel rest
    else plexInfoBlocksF fuel rest

def plexInfoBlocks (cs : List Char) : List (String × String) :=
  plexInfoBlocksF cs.length cs

/-- Python `str.replace(old, "")` for a nonempty `old` (the only use in
`plex.py`): remove every non-overlapping occurrence, left to right.  Fuel
as in `plexMetaBlocksF`. -/
def removeAllF (pat : List Char) : Nat → List Char → List Char
  | 0, cs => cs
  | _, [] => []
  | fuel + 1, c :: rest =>
    if pat.isPrefixOf (c :: rest) then removeAllF pat fuel ((c :: rest).drop pat.length)
    else c :: removeAllF pat fuel rest

def pyReplaceEmpty (s old : String) : String :=
  ⟨removeAllF old.data s.data.length s.data⟩

/-- One iteration of the provider/movie-id loop of
`PlexLibrary.parse_movie_path` (lines 71–76): the block is removed from the
leftover by a global `str.replace(block, "")`; a recognized provider key
overwrites `provider`/`movie_id`. -/
def plexMovieStep (st : String × Option String × Option String)
    (b : String × String × String) : String × Option String × Option String :=
  let leftover := pyReplaceEmpty st.1 b.2.2
  if pyLower b.1 ∈ PLEX_METADATA_PROVIDER then
    (leftover, some (pyStrip (pyLower b.1)), some (pyStrip b.2.1))
  else (leftover, st.2.1, st.2.2)

/-- The provider/movie-id fold of `PlexLibrary.parse_movie_path`
(lines 69–76).  Returns `(leftover, provider, movie_id)`. -/
def plexMovieScan (name : String) : String × Option String × Option String :=
  (plexMetaBlocks name.data).foldl plexMovieStep (name, none, none)

/-- Leftover text of `PlexLibrary.parse_movie_path` after removing meta
blocks, removing `[info]` blocks, collapsing whitespace and stripping. -/
def plexMovieLeftover (name : String) : String :=
  let l1 := (plexMovieScan name).1
  let l2 := (plexInfoBlocks l1.data).foldl (fun acc b => pyReplaceEmpty acc b.2) l1
  pyStrip ⟨collapseWS l2.data⟩

/-- Tail of `PLEX_MOVIE_PATTERN` (`^(?P<title>.+?)\s+\((?P<year>\d{4})\)`,
no `$`) after the title. -/
def tailYearOpen (cs : List Char) : Option String := do
  let r1 ← scanWS1 cs
  let (year, _) ← scanYear r1
  pure year

/-- Title/year split applied to the cleaned-up leftover
(lines 87–93 of `plex.py`). -/
def plexTitleYear (leftover : String) : String × Option String :=
  match lazyTitle tailYearOpen leftover.data with
  | some (t, y) => (pyStrip t, some y)
  | none => (leftover, none)

/-- `PlexLibrary.parse_movie_path`. -/
def plexParseMoviePath (name : String) : Option MovieInfo :=
  let (_, provider, movie_id) := plexMovieScan name
  let (title, year) := plexTitleYear (plexMovieLeftover name)
  if title ≠ "" then some { title, year, provider, movie_id } else none

/-- `PlexLibrary.movie_name`. -/
def plexMovieName (m : MovieInfo) : String :=
  " ".intercalate
    ([m.title]
      ++ (if truthy m.year then ["(" ++ m.year.getD "" ++ ")"] else [])
      ++ (if truthy m.provider && truthy m.movie_id then
            ["\x7b" ++ m.provider.getD "" ++ "-" ++ m.movie_id.getD "" ++ "\x7d"]
          else []))

/-- One iteration of the edition/provider loop of
`PlexLibrary.parse_video_path` (lines 112–117). -/
def plexVideoMetaStep (st : String × Option String × List String)
    (b : String × String × String) : String × Option String × List String :=
  let leftover := pyReplaceEmpty st.1 b.2.2
  if pyLower b.1 = "edition" then (leftover, some b.2.1, st.2.2)
  else if pyLower b.1 ∈ PLEX_METADATA_PROVIDER then
    (leftover, st.2.1, sinsert (pyLower b.1 ++ "-" ++ b.2.1) st.2.2)
  else (leftover, st.2.1, st.2.2)

/-- One iteration of the tag/resolution loop of
`PlexLibrary.parse_video_path` (lines 122–128). -/
def plexVideoInfoStep (st : String × Option String × List String)
    (b : String × String) : String × Option String × List String :=
  let tag := pyStrip b.1
  let leftover := pyReplaceEmpty st.1 b.2
  if resolutionMatch tag then (leftover, some tag, st.2.2)
  else (leftover, st.2.1, sinsert tag st.2.2)

/-- `PlexLibrary.parse_video_path`, as a function of the file name.
The final leftover cleanup of lines 130–132 is computed by the source but
never used, so it is omitted here; the edition/provider/tag/resolution
folds are embedded exactly. -/
def plexParseVideoName (fileName : String) : Option VideoInfo :=
  let nm := pyStem fileName
  let st := (plexMetaBlocks nm.data).foldl plexVideoMetaStep (nm, none, [])
  let st2 := (plexInfoBlocks st.1.data).foldl plexVideoInfoStep (st.1, none, [])
  some { extension := pySuffix fileName,
         edition := st.2.1,
         resolution := st2.2.1,
         tags := if st2.2.2 = [] then none else some st2.2.2,
         providers := if st.2.2 = [] then none else some st.2.2 }

/-! ## Reconciliation engine (`sync.py`)

The filesystem is abstracted: a library scan becomes a list of
`(folder name, parsed MovieInfo)` pairs (the output of
`MediaLibrary.scan`), the target root's `iterdir()` becomes a list of
names, and the mutations of a run are returned as data instead of being
performed.  Logging and the `*Stats` counters are omitted; `dry_run` only
changes logging, so the returned action data describes both modes. -/

/-- One `(entry, movie)` pair produced by `MediaLibrary.scan`. -/
structure ScanEntry where
  name : String
  movie : MovieInfo
  deriving DecidableEq

/-- Association-list model of a Python `dict` (insertion-ordered).
`alistLookup` is `d[k]` / `k in d`; `alistSet` is `d[k] = v` (updates in
place, appends new keys at the end). -/
def alistLookup {β : Type} (k : String) : List (String × β) → Option β
  | [] => none
  | (k', v) :: rest => if k' = k then some v else alistLookup k rest

def alistSet {β : Type} (k : String) (v : β) : List (String × β) → List (String × β)
  | [] => [(k, v)]
  | (k', v') :: rest =>
    if k' = k then (k', v) :: rest else (k', v') :: alistSet k v rest

/-- State of the first loop of `scan_media_library` (lines 141–155):
`movies_to_sync` and `conflicting_source_dirs`. -/
structure ScanState where
  sync : List (String × Option ScanEntry)
  conflicts : List (String × List String)
  deriving DecidableEq

/-- One iteration of the `for entry, movie in source.scan()` loop. -/
def scanStep (movieName : MovieInfo → String) (st : ScanState) (e : ScanEntry) :
    ScanState :=
  let t := movieName e.movie
  match alistLookup t st.sync with
  | some item =>
    let conflicts :=
      match alistLookup t st.conflicts with
      | some _ => st.conflicts
      | none =>
        st.conflicts ++ [(t, match item with | some it => [it.name] | none => [])]
    { sync := alistSet t none st.sync,
      conflicts := alistSet t ((alistLookup t conflicts).getD [] ++ [e.name]) conflicts }
  | none =>
    { sync := st.sync ++ [(t, some e)], conflicts := st.conflicts }

def scanFold (movieName : MovieInfo → String) (entries : List ScanEntry) : ScanState :=
  entries.foldl (scanStep movieName) ⟨[], []⟩

/-- Observable outcome of `scan_media_library`: the conflict report, the
yielded `(source name, target name, movie)` triples, and the stray target
entries removed in delete mode. -/
structure ScanResult where
  conflicts : List (String × List String)
  yielded : List (String × String × MovieInfo)
  removed : List String
  deriving DecidableEq

/-- `scan_media_library`.  `source is target` implies equal base
directories, so the identity check of line 137 is subsumed by base-dir
equality (`MediaLibrary.__init__` stores `base_dir.resolve()`, so the
strings here stand for resolved paths).  When conflicts exist the
generator returns before yielding and before the stray loop (lines
157–163): nothing is yielded and nothing is removed. -/
def scanMediaLibrary (sourceBase targetBase : String)
    (movieName : MovieInfo → String) (entries : List ScanEntry)
    (targetEntries : List String) (delete : Bool) : Except String ScanResult :=
  if sourceBase = targetBase then
    .error "Can not transfer library into itself"
  else
    let st := scanFold movieName entries
    if st.conflicts ≠ [] then
      .ok ⟨st.conflicts, [], []⟩
    else
      .ok ⟨[],
        st.sync.filterMap (fun p => p.2.map (fun e => (e.name, p.1, e.movie))),
        if delete then
          targetEntries.filter (fun n => alistLookup n st.sync = none)
        else []⟩

/-- Number of scanned source entries whose target name is `t`. -/
def targetCount (movieName : MovieInfo → String) (entries : List ScanEntry)
    (t : String) : Nat :=
  (entries.filter (fun e => movieName e.movie = t)).length

/-- The source-folder names mapping to target name `t`, in scan order. -/
def conflictGroup (movieName : MovieInfo → String) (entries : List ScanEntry)
    (t : String) : List String :=
  (entries.filter (fun e => movieName e.movie = t)).map (·.name)

/-! ### Mount-safety pre-flight (`is_source_empty_or_unmounted`, `sync`) -/

structure DirEntry where
  name : String
  isDir : Bool
  deriving DecidableEq

def MIN_SOURCE_ITEMS_FOR_DELETE : Nat := 1

/-- The `os.scandir` counting loop of `is_source_empty_or_unmounted`. -/
def emptyScanLoop : List DirEntry → Nat → Bool
  | [], cnt => cnt == 0
  | e :: rest, cnt =>
    if e.isDir then
      if MIN_SOURCE_ITEMS_FOR_DELETE ≤ cnt + 1 then false
      else emptyScanLoop rest (cnt + 1)
    else emptyScanLoop rest cnt

/-- `is_source_empty_or_unmounted`: `OSError` (modelled as `.error`) also
reports `true`. -/
def isSourceEmptyOrUnmounted (listing : Except Unit (List DirEntry)) : Bool :=
  match listing with
  | .error _ => true
  | .ok entries => emptyScanLoop entries 0

/-- The `--convert-to` selector of `sync` (unknown strings raise before any
environment access and are excluded by typing). -/
inductive ConvertTo where
  | auto | jellyfin | plex
  deriving DecidableEq

/-- Environment facts `sync` reads before reaching the per-movie phase. -/
structure SyncEnv where
  sourceTypeDetected : Bool
  sourceIsDir : Bool
  sourceListing : Except Unit (List DirEntry)
  targetIsDir : Bool
  partialResolves : Bool
  partialParses : Bool

/-- The pre-flight decision chain of `sync` (lines 639–704), in source
order.  Returns `(exit code, reached)` where `reached` records whether the
run got past every pre-flight check to the phase that scans the target
library and performs (or, in dry-run, reports) mutations. -/
def syncRun (env : SyncEnv) (delete create : Bool) (convert : ConvertTo)
    (subPath : Option String) : Nat × Bool :=
  if convert = ConvertTo.auto ∧ ¬ env.sourceTypeDetected then (1, false)
  else if ¬ env.sourceIsDir then (1, false)
  else if delete ∧ subPath = none ∧ isSourceEmptyOrUnmounted env.sourceListing then
    (1, false)
  else if ¬ env.targetIsDir ∧ ¬ create then (1, false)
  else
    match subPath with
    | some _ =>
      if ¬ env.partialResolves then (1, false)
      else if ¬ env.partialParses then (1, false)
      else (0, true)
    | none => (0, true)

/-! ### Per-movie hardlink synchronizer (`process_movie`) -/

/-- An entry of the movie's target folder (`target_path.iterdir()`). -/
structure FolderEntry where
  name : String
  isFile : Bool
  deriving DecidableEq

/-- What `process_movie` does for one intended video file (lines 386–483). -/
inductive VideoAction where
  /-- Intended target exists with the source's inode: no-op (line 391). -/
  | skip
  /-- Intended target exists with a different inode: unlink, then fall
  through to the hardlink of lines 477–483. -/
  | replaceLink
  /-- Stale candidate renamed to the intended name, with its same-stem
  sidecar renames (lines 423–463); no hardlink is created. -/
  | rename (stale : String) (assocRenames : List (String × String))
  /-- Stale candidate warned about and preserved together with its
  same-stem sidecars (lines 464–475); no hardlink is created. -/
  | preserveWarn (stale : String) (preserved : List String)
  /-- Fresh hardlink (lines 477–483). -/
  | link
  deriving DecidableEq

/-- Line 420: `intended_video and candidate_video and
intended_video.edition == candidate_video.edition` (a `VideoInfo` instance
is always truthy; `None` is falsy). -/
def editionsMatch (pv : String → Option VideoInfo) (intendedName staleName : String) :
    Bool :=
  match pv intendedName, pv staleName with
  | some a, some b => a.edition == b.edition
  | _, _ => false

/-- The sidecar renames of lines 434–458: files of the target folder other
than the stale file and the intended file whose name starts with the stale
stem plus a dot and whose suffix is an accepted associated suffix, renamed
by substituting the intended stem for the stale stem. -/
def assocRenames (folder : List FolderEntry) (staleName intendedName : String) :
    List (String × String) :=
  let staleStem := pyStem staleName
  let targetStem := pyStem intendedName
  (folder.filter (fun f =>
      f.name ≠ staleName ∧ f.name ≠ intendedName ∧ f.isFile = true ∧
      pyLower (pySuffix f.name) ∈ ACCEPTED_ASSOCIATED_SUFFIXES ∧
      (staleStem ++ ".").data.isPrefixOf f.name.data)).map
    (fun f => (f.name, targetStem ++ ⟨f.name.data.drop staleStem.data.length⟩))

/-- The `preserved_stale_files` additions of lines 466–474: the stale name
itself plus every same-stem sidecar file in the target folder. -/
def preservedStaleFiles (folder : List FolderEntry) (staleName : String) :
    List String :=
  let staleStem := pyStem staleName
  staleName ::
    (folder.filter (fun f =>
        f.isFile = true ∧ (staleStem ++ ".").data.isPrefixOf f.name.data ∧
        pyLower (pySuffix f.name) ∈ ACCEPTED_ASSOCIATED_SUFFIXES)).map (·.name)

/-- The decision `process_movie` takes for one entry of `videos_to_sync`
(lines 386–483).  `intendedExists` is `item[1].exists()`, `sameFile` is
`item[1].samefile(item[0])`, `stale` is the name found in the
inode-indexed map `existing_inodes` for the source file's inode, `folder`
is the target folder's listing, and `pv` is the target library's
`parse_video_path`. -/
def processVideoItem (updateFilenames : Bool) (pv : String → Option VideoInfo)
    (intendedName : String) (intendedExists sameFile : Bool)
    (stale : Option String) (folder : List FolderEntry) : VideoAction :=
  if intendedExists then
    if sameFile then .skip else .replaceLink
  else
    match stale with
    | none => .link
    | some c =>
      if updateFilenames || editionsMatch pv intendedName c then
        if updateFilenames then .rename c (assocRenames folder c intendedName)
        else .preserveWarn c (preservedStaleFiles folder c)
      else .link

/-- Stray cleanup in the movie folder (lines 485–502): in delete mode,
every target-folder entry whose name is neither an intended video name,
an intended asset name, nor preserved, is removed. -/
def movieStrayRemovals (delete : Bool) (folder : List FolderEntry)
    (videosToSync assetsToSync preserved : List String) : List String :=
  if delete then
    (folder.filter (fun f =>
        f.name ∉ videosToSync ∧ f.name ∉ assetsToSync ∧ f.name ∉ preserved)).map (·.name)
  else []

/-- State of one intended video in the idempotence argument: whether its
intended target path exists and whether it is the source's inode. -/
structure VideoSyncItem where
  intendedName : String
  targetExists : Bool
  sameFile : Bool
  stale : Option String
  deriving DecidableEq

/-- The `for _video_name, item in videos_to_sync.items()` loop, as the list
of decisions taken.  (The real loop also mutates the filesystem; when every
decision is `skip` — the situation of the idempotence claim — no mutation
happens, so the per-item view is exact.) -/
def videoLoopActions (updateFilenames : Bool) (pv : String → Option VideoInfo)
    (folder : List FolderEntry) (items : List VideoSyncItem) : List VideoAction :=
  items.map (fun it =>
    processVideoItem updateFilenames pv it.intendedName it.targetExists it.sameFile
      it.stale folder)

/-- The associated-file / asset-file branch shared by
`process_assets_folder` (lines 234–254) and `process_movie`
(lines 526–547): skip when the destination exists with the same inode,
unlink-and-relink when it exists with a different inode, link when absent. -/
inductive AssetAction where
  | skip | relink | link
  deriving DecidableEq

def assetFileAction (destExists sameFile : Bool) : AssetAction :=
  if destExists then
    if sameFile then .skip else .relink
  else .link

/-- Stray cleanup of `process_assets_folder` (lines 258–268): in delete
mode every target entry not among the synced names is removed. -/
def assetStrayRemovals (delete : Bool) (targetEntries synced : List String) :
    List String :=
  if delete then targetEntries.filter (fun n => n ∉ synced) else []

/-! ## Spec-side definitions

These definitions follow the words of the specification / claims (not the
code); the refinement theorems below compare them with the embeddings
above. -/

/-- Modelled from the claim (spec §4.2): the outcome of matching one word
of the variant string against the ordered resolution table — `4k` pattern,
then `BD`, then `DVD`, then bare `\d{3,4}[pi]`; first matching pattern
wins; a trailing `-tag`/`.tag` yields an extra tag. -/
inductive WordMatch where
  | noMatch
  | res4k (tag : Option String)
  | resBD (tag : Option String)
  | resDVD (tag : Option String)
  | resBare (r : String)
  deriving DecidableEq

def matchWordSpec (w : String) : WordMatch :=
  match match4k w with
  | some tag => .res4k tag
  | none =>
    match matchBD w with
    | some tag => .resBD tag
    | none =>
      match matchDVD w with
      | some tag => .resDVD tag
      | none =>
        match matchBareRes w with
        | some r => .resBare r
        | none => .noMatch

/-- Canonical resolution contributed by a word match, per the claim:
`4k → 2160p`, `BD → 1080p`, `DVD` contributes no resolution, a bare token
stands for itself. -/
def wordRes : WordMatch → Option String
  | .res4k _ => some "2160p"
  | .resBD _ => some "1080p"
  | .resDVD _ => none
  | .resBare _r => some _r
  | .noMatch => none

/-- Tags contributed by a word match, per the claim: the `DVD` class tag
plus any trailing disambiguating tag. -/
def wordTags : WordMatch → List String
  | .res4k (some t) => mkSet [t]
  | .resBD (some t) => mkSet [t]
  | .resDVD none => mkSet ["DVD"]
  | .resDVD (some t) => mkSet ["DVD", t]
  | _ => []

/-- Modelled from the claim (spec §4.2, parsing direction): split on
spaces; if the first word matches the table, everything after it is the
edition; else, if more than one word exists and the last word matches,
everything before it is the edition; else the whole variant string is the
edition.  First-word match takes precedence over last-word match. -/
def sninerParseSpec (variant : String) (video : VideoInfo) : VideoInfo :=
  let ws := pySplitSpace variant
  let build : Option String → List String → String → VideoInfo := fun res tags ed =>
    let tagsU := sunion (video.tags.getD []) tags
    { extension := video.extension,
      edition := if ed = "" then none else some ed,
      resolution := res,
      tags := if tagsU = [] then none else some tagsU,
      providers := video.providers }
  let first := matchWordSpec (ws.headD "")
  if first ≠ WordMatch.noMatch then
    build (wordRes first) (wordTags first) (" ".intercalate (ws.drop 1))
  else if 1 < ws.length ∧ matchWordSpec (ws.getLastD "") ≠ WordMatch.noMatch then
    let lastM := matchWordSpec (ws.getLastD "")
    build (wordRes lastM) (wordTags lastM) (" ".intercalate ws.dropLast)
  else
    build none [] variant

/-- `JellyfinLibrary.movie_name` restricted to title and year — the name
with no provider-id block (used to state that the generator emits an id
block only when both `provider` and `movie_id` are present). -/
def jellyfinMovieNameNoId (m : MovieInfo) : String :=
  " ".intercalate
    ([m.title] ++ (if truthy m.year then ["(" ++ m.year.getD "" ++ ")"] else []))

/-- `PlexLibrary.movie_name` restricted to title and year. -/
def plexMovieNameNoId (m : MovieInfo) : String :=
  " ".intercalate
    ([m.title] ++ (if truthy m.year then ["(" ++ m.year.getD "" ++ ")"] else []))

/-- The last `{key-value}` block of a block list whose key (lower-cased) is
a recognized metadata provider. -/
def lastRecognized (blocks : List (String × String × String)) :
    Option (String × String × String) :=
  (blocks.filter (fun b => pyLower b.1 ∈ PLEX_METADATA_PROVIDER)).getLast?

/-- The provider strings a Convention B video parse should collect: one
`<provider>-<id>` entry per recognized `{key-value}` block. -/
def recognizedProviderSet (blocks : List (String × String × String)) :
    List String :=
  mkSet ((blocks.filter (fun b => pyLower b.1 ∈ PLEX_METADATA_PROVIDER)).map
    (fun b => pyLower b.1 ++ "-" ++ b.2.1))

/-- Expected `movies_to_sync[t]` after scanning `entries`: absent when no
entry maps to `t`, the unique entry when exactly one does, the `None`
conflict marker when two or more do. -/
def syncExpected (movieName : MovieInfo → String) (entries : List ScanEntry)
    (t : String) : Option (Option ScanEntry) :=
  match entries.filter (fun e => movieName e.movie = t) with
  | [] => none
  | [e] => some (some e)
  | _ => some none

/-- Expected `conflicting_source_dirs[t]` after scanning `entries`: present
exactly when two or more entries map to `t`, holding all their names in
scan order. -/
def conflictsExpected (movieName : MovieInfo → String) (entries : List ScanEntry)
    (t : String) : Option (List String) :=
  match entries.filter (fun e => movieName e.movie = t) with
  | [] => none
  | [_] => none
  | l => some (l.map (·.name))

/-- Loop invariant of the scan loop of `scan_media_library`. -/
def ScanInv (movieName : MovieInfo → String) (entries : List ScanEntry)
    (st : ScanState) : Prop :=
  ∀ t : String,
    alistLookup t st.sync = syncExpected movieName entries t ∧
    alistLookup t st.conflicts = conflictsExpected movieName entries t

/-! ## Theorems

Shared helper lemmas first, then one theorem per claim (with a witness or
counterexample where required). -/

theorem alistLookup_append {β : Type} (k : String) (l1 l2 : List (String × β)) :
    alistLookup k (l1 ++ l2) =
      (match alistLookup k l1 with
       | some v => some v
       | none => alistLookup k l2) := by
  induction l1 with
  | nil => simp [alistLookup]
  | cons p l1 ih =>
    by_cases h : p.1 = k
    · simp [alistLookup, h]
    · simpa [alistLookup, h] using ih

theorem alistLookup_set_self {β : Type} (k : String) (v : β) (l : List (String × β)) :
    alistLookup k (alistSet k v l) = some v := by
  induction l with
  | nil => simp [alistSet, alistLookup]
  | cons p l ih =>
    by_cases h : p.1 = k
    · simp [alistSet, alistLookup, h]
    · simpa [alistSet, alistLookup, h] using ih

theorem alistLookup_set_ne {β : Type} (k k' : String) (v : β) (l : List (String × β))
    (h : k' ≠ k) : alistLookup k' (alistSet k v l) = alistLookup k' l := by
  induction l with
  | nil => simp [alistSet, alistLookup, Ne.symm h]
  | cons p l ih =>
    by_cases hp : p.1 = k
    · simp [alistSet, alistLookup, hp, Ne.symm h]
    · simp [alistSet, alistLookup, hp, ih]

/-- C7: when source and target library are the same object or have equal
resolved base directories (object identity implies equal resolved base
directories, since `MediaLibrary.__init__` stores `base_dir.resolve()`),
`scan_media_library` fails with the fatal configuration error before
consuming a single directory entry: no triple is yielded and nothing is
read or removed. -/
theorem same_library_fatal (base : String) (movieName : MovieInfo → String)
    (entries : List ScanEntry) (targetEntries : List String) (delete : Bool) :
    scanMediaLibrary base base movieName entries targetEntries delete =
      Except.error "Can not transfer library into itself" := by
  simp [scanMediaLibrary]

/-- C8 (counterexample): the mount-safety guard of `sync` (line 672) is
`delete and not partial_path and is_source_empty_or_unmounted(...)`, so a
delete-enabled run given a single-movie partial path skips the check even
though the source root holds zero subdirectories: with every other
pre-flight fact benign the run proceeds past all checks into the phase
that scans — and, in delete mode, removes — target content, and exits 0
rather than refusing with exit code 1.  (The situation is reachable:
`resolve_movie_folder` at line 110 can return an existing folder by its
resolved-path or name-match branches independently of the library scan.) -/
theorem delete_empty_source_counterexample :
    isSourceEmptyOrUnmounted (Except.ok []) = true ∧
    syncRun ⟨true, true, Except.ok [], true, true, true⟩ true false ConvertTo.auto
      (some "Movie (2000)") = (0, true) := by
  decide

/-- C8 (amended): with delete mode enabled, **no single-movie partial path
given**, and a source root that contains zero subdirectories or cannot be
read, `sync` exits with code 1 before the phase that scans or deletes
target content — whatever the remaining flags and environment are.  (With
a partial path the guard at line 672 is skipped and the run proceeds; see
the counterexample.) -/
theorem delete_empty_source_aborts (env : SyncEnv) (delete create : Bool)
    (convert : ConvertTo) (subPath : Option String)
    (hdel : delete = true) (hsub : subPath = none)
    (hempty : isSourceEmptyOrUnmounted env.sourceListing = true) :
    syncRun env delete create convert subPath = (1, false) := by
  subst hdel hsub
  simp [syncRun, hempty]

/-- Witness for C8: a concrete environment whose source listing holds no
directory (an empty listing), delete mode on, no partial path. -/
theorem delete_empty_source_aborts_witness :
    syncRun ⟨true, true, Except.ok [], true, true, true⟩ true false ConvertTo.auto none =
      (1, false) :=
  delete_empty_source_aborts ⟨true, true, Except.ok [], true, true, true⟩ true false
    ConvertTo.auto none rfl rfl (by decide)

/-- C5: the variant engine's resolution mappings agree in both directions:
parsing maps `"4k"` to resolution `"2160p"`, `"BD"` to `"1080p"`, and
`"DVD"` to the DVD class (no resolution, tag set `{"DVD"}`); generation
maps resolution `"1080p"` to `"BD"`, `"2160p"` to `"4k"`, `"480p"`/`"576p"`
to `"DVD"`, and emits `"DVD"` when a `"DVD"` tag is present with no
resolution; each of the three shorthands round-trips through parse and
generate, in both compositions. -/
theorem resolution_roundtrip :
    (sninerParse "4k" { extension := ".mkv" }).resolution = some "2160p" ∧
    (sninerParse "BD" { extension := ".mkv" }).resolution = some "1080p" ∧
    (sninerParse "DVD" { extension := ".mkv" }).resolution = none ∧
    (sninerParse "DVD" { extension := ".mkv" }).tags = some {"DVD"} ∧
    sninerTagsToVariant { extension := ".mkv", resolution := some "1080p" } = ["BD"] ∧
    sninerTagsToVariant { extension := ".mkv", resolution := some "2160p" } = ["4k"] ∧
    sninerTagsToVariant { extension := ".mkv", resolution := some "480p" } = ["DVD"] ∧
    sninerTagsToVariant { extension := ".mkv", resolution := some "576p" } = ["DVD"] ∧
    sninerTagsToVariant { extension := ".mkv", tags := some {"DVD"} } = ["DVD"] ∧
    sninerTagsToVariant (sninerParse "4k" { extension := ".mkv" }) = ["4k"] ∧
    sninerTagsToVariant (sninerParse "BD" { extension := ".mkv" }) = ["BD"] ∧
    sninerTagsToVariant (sninerParse "DVD" { extension := ".mkv" }) = ["DVD"] ∧
    (sninerParse
      (" ".intercalate (sninerTagsToVariant { extension := ".mkv", resolution := some "1080p" }))
      { extension := ".mkv" }).resolution = some "1080p" ∧
    (sninerParse
      (" ".intercalate (sninerTagsToVariant { extension := ".mkv", resolution := some "2160p" }))
      { extension := ".mkv" }).resolution = some "2160p" ∧
    (sninerParse
      (" ".intercalate (sninerTagsToVariant { extension := ".mkv", tags := some {"DVD"} }))
      { extension := ".mkv" }).tags = some {"DVD"} := by
  decide

/-- C2 (counterexample): a movie whose intended target does not exist and
whose target folder holds a stale hardlink (same inode, old name), with
`update_filenames` disabled and the stale name parsing to a different
edition than the intended name: `process_movie` falls through the
`update_filenames or editions_match` guard and creates a second hardlink
to the inode instead of preserving and warning. -/
theorem stale_no_update_counterexample :
    processVideoItem false jellyfinParseVideoName "Movie (2000) - Uncut.mkv" false false
      (some "Movie (2000).mkv") [] = VideoAction.link := by
  decide

/-- C2 (amended): when the intended target path does not exist and the
target folder contains a video with the source file's inode under a stale
name, `process_movie` never links while `update_filenames` is enabled —
it renames the stale file together with its same-stem sidecars; with
`update_filenames` disabled it preserves, warns and shields the stale file
and its sidecars from stray deletion only when the parsed editions of the
stale and intended names agree; when they disagree it creates a fresh
hardlink under the intended name. -/
theorem stale_hardlink_behavior (uf : Bool) (pv : String → Option VideoInfo)
    (intendedName c : String) (sameFile : Bool) (folder : List FolderEntry) :
    (uf = true →
      processVideoItem uf pv intendedName false sameFile (some c) folder =
        VideoAction.rename c (assocRenames folder c intendedName)) ∧
    (uf = false → editionsMatch pv intendedName c = true →
      processVideoItem uf pv intendedName false sameFile (some c) folder =
        VideoAction.preserveWarn c (preservedStaleFiles folder c) ∧
      c ∈ preservedStaleFiles folder c ∧
      ∀ (delete : Bool) (v a : List String),
        c ∉ movieStrayRemovals delete folder v a (preservedStaleFiles folder c)) ∧
    (uf = false → editionsMatch pv intendedName c = false →
      processVideoItem uf pv intendedName false sameFile (some c) folder =
        VideoAction.link) := by
  refine ⟨fun h => ?_, fun h hm => ?_, fun h hm => ?_⟩
  · subst h; simp [processVideoItem]
  · subst h
    refine ⟨by simp [processVideoItem, hm], List.mem_cons_self _ _, ?_⟩
    intro delete v a hmem
    simp only [movieStrayRemovals] at hmem
    rcases delete with _ | _
    · simp at hmem
    · simp only [if_true] at hmem
      rcases List.mem_map.mp hmem with ⟨f, hf, hname⟩
      have := (List.mem_filter.mp hf).2
      simp only [decide_eq_true_eq] at this
      exact this.2.2 (hname ▸ List.mem_cons_self _ _)
  · subst h; simp [processVideoItem, hm]

/-- Witness for C2's amended theorem: concrete stale situations exercising
the rename branch and the preserve branch. -/
theorem stale_hardlink_behavior_witness :
    (processVideoItem true jellyfinParseVideoName "A (2000) - Uncut.mkv" false false
        (some "A (2000).mkv") [] =
      VideoAction.rename "A (2000).mkv" (assocRenames [] "A (2000).mkv" "A (2000) - Uncut.mkv")) ∧
    (processVideoItem false jellyfinParseVideoName "B (2001) - BD.mkv" false false
        (some "B (2001).mkv") [] =
      VideoAction.preserveWarn "B (2001).mkv" (preservedStaleFiles [] "B (2001).mkv")) := by
  constructor
  · exact (stale_hardlink_behavior true jellyfinParseVideoName "A (2000) - Uncut.mkv"
      "A (2000).mkv" false []).1 rfl
  · exact ((stale_hardlink_behavior false jellyfinParseVideoName "B (2001) - BD.mkv"
      "B (2001).mkv" false []).2.1 rfl (by decide)).1

/-- C3: on a second run over the state a first successful run produced
(every intended video target exists and is the source's inode; every
associated/asset destination exists and is the source's inode; every
target-folder entry is one of the synced names), the synchronizer performs
zero additional mutations: every video decision is the `skip` no-op, every
associated/asset decision is the `skip` no-op, and both stray-cleanup
passes remove nothing. -/
theorem second_run_noop (uf : Bool) (pv : String → Option VideoInfo)
    (folder : List FolderEntry) (items : List VideoSyncItem)
    (afItems : List (Bool × Bool)) (delete : Bool)
    (videosToSync assetsToSync : List String) (preserved : List String)
    (movieFolder : List FolderEntry) (assetEntries synced : List String)
    (hv : ∀ it ∈ items, it.targetExists = true ∧ it.sameFile = true)
    (ha : ∀ p ∈ afItems, p.1 = true ∧ p.2 = true)
    (hm : ∀ f ∈ movieFolder, f.name ∈ videosToSync ∨ f.name ∈ assetsToSync)
    (hs : ∀ n ∈ assetEntries, n ∈ synced) :
    videoLoopActions uf pv folder items = items.map (fun _ => VideoAction.skip) ∧
    afItems.map (fun p => assetFileAction p.1 p.2) =
      afItems.map (fun _ => AssetAction.skip) ∧
    movieStrayRemovals delete movieFolder videosToSync assetsToSync preserved = [] ∧
    assetStrayRemovals delete assetEntries synced = [] := by
  refine ⟨?_, ?_, ?_, ?_⟩
  · apply List.map_congr_left
    intro it hit
    rcases hv it hit with ⟨h1, h2⟩
    simp [processVideoItem, h1, h2]
  · apply List.map_congr_left
    intro p hp
    rcases ha p hp with ⟨h1, h2⟩
    simp [assetFileAction, h1, h2]
  · rcases delete with _ | _
    · simp [movieStrayRemovals]
    · simp only [movieStrayRemovals, if_true]
      rw [List.filter_eq_nil_iff.mpr, List.map_nil]
      intro f hf
      rcases hm f hf with h | h <;> simp [h]
  · rcases delete with _ | _
    · simp [assetStrayRemovals]
    · simp only [assetStrayRemovals, if_true]
      rw [List.filter_eq_nil_iff.mpr]
      intro n hn
      simp [hs n hn]

/-- Witness for C3: a concrete fully-synced state (one video, one sidecar,
one asset entry) on which the second run is a no-op. -/
theorem second_run_noop_witness :
    videoLoopActions false jellyfinParseVideoName [⟨"M (2000).mkv", true⟩]
        [⟨"M (2000).mkv", true, true, none⟩] =
      [VideoAction.skip] ∧
    [((true : Bool), (true : Bool))].map (fun p => assetFileAction p.1 p.2) =
      [AssetAction.skip] ∧
    movieStrayRemovals true [⟨"M (2000).mkv", true⟩] ["M (2000).mkv"] [] [] = [] ∧
    assetStrayRemovals true ["poster.jpg"] ["poster.jpg"] = [] := by
  have h := second_run_noop false jellyfinParseVideoName [⟨"M (2000).mkv", true⟩]
    [⟨"M (2000).mkv", true, true, none⟩] [((true : Bool), (true : Bool))] true
    ["M (2000).mkv"] [] [] [⟨"M (2000).mkv", true⟩] ["poster.jpg"] ["poster.jpg"]
    (by intro it hit; simp at hit; subst hit; exact ⟨rfl, rfl⟩)
    (by intro p hp; simp at hp; subst hp; exact ⟨rfl, rfl⟩)
    (by intro f hf; simp at hf; subst hf; left; simp)
    (by intro n hn; simp at hn; subst hn; simp)
  simpa using h

theorem jellyfinMovieFrom_inv (t : String) (y : Option String) (pid : Option String) :
    ((jellyfinMovieFrom t y pid).provider.isSome ↔
      (jellyfinMovieFrom t y pid).movie_id.isSome) := by
  cases pid <;> simp [jellyfinMovieFrom]

theorem plexMovieFold_inv (blocks : List (String × String × String))
    (init : String × Option String × Option String)
    (h : init.2.1.isSome ↔ init.2.2.isSome) :
    ((blocks.foldl plexMovieStep init).2.1.isSome ↔
      (blocks.foldl plexMovieStep init).2.2.isSome) := by
  induction blocks generalizing init with
  | nil => simpa using h
  | cons b rest ih =>
    simp only [List.foldl_cons]
    apply ih
    by_cases hb : pyLower b.1 ∈ PLEX_METADATA_PROVIDER
    · simp [plexMovieStep, hb]
    · simpa [plexMovieStep, hb] using h

/-- C9: every `MovieInfo` produced by either convention's
`parse_movie_path` has `provider` present (`isSome`) exactly when
`movie_id` is present; and both conventions' `movie_name` generators emit
a provider-id block only when both fields are present — when either is
absent the generated name is exactly the block-free title/year name. -/
theorem provider_movie_id_invariant :
    (∀ s m, jellyfinParseMoviePath s = some m →
      (m.provider.isSome ↔ m.movie_id.isSome)) ∧
    (∀ s m, plexParseMoviePath s = some m →
      (m.provider.isSome ↔ m.movie_id.isSome)) ∧
    (∀ m : MovieInfo, m.provider = none ∨ m.movie_id = none →
      jellyfinMovieName m = jellyfinMovieNameNoId m ∧
      plexMovieName m = plexMovieNameNoId m) := by
  refine ⟨?_, ?_, ?_⟩
  · intro s m h
    simp only [jellyfinParseMoviePath] at h
    repeat' split at h
    all_goals
      first
      | exact Option.noConfusion h
      | (injection h with h'; subst h'; exact jellyfinMovieFrom_inv _ _ _)
  · intro s m h
    simp only [plexParseMoviePath] at h
    split at h
    · injection h with h'
      subst h'
      simpa [plexMovieScan] using
        plexMovieFold_inv (plexMetaBlocks s.data) (s, none, none) (by simp)
    · exact Option.noConfusion h
  · intro m hm
    rcases hm with hm | hm <;>
      simp [jellyfinMovieName, jellyfinMovieNameNoId, plexMovieName, plexMovieNameNoId,
        truthy, hm]

/-- Witness for C9: the invariant and the generator property applied to
concrete parses of both conventions and a provider-less `MovieInfo`. -/
theorem provider_movie_id_invariant_witness :
    ((MovieInfo.mk "Movie" none (some "tmdb") (some "585")).provider.isSome ↔
      (MovieInfo.mk "Movie" none (some "tmdb") (some "585")).movie_id.isSome) ∧
    ((MovieInfo.mk "Movie" (some "1984") none none).provider.isSome ↔
      (MovieInfo.mk "Movie" (some "1984") none none).movie_id.isSome) ∧
    (jellyfinMovieName (MovieInfo.mk "Movie" (some "1984") none none) =
      jellyfinMovieNameNoId (MovieInfo.mk "Movie" (some "1984") none none) ∧
     plexMovieName (MovieInfo.mk "Movie" (some "1984") none none) =
      plexMovieNameNoId (MovieInfo.mk "Movie" (some "1984") none none)) := by
  refine ⟨?_, ?_, ?_⟩
  · exact provider_movie_id_invariant.1 "Movie [tmdbid-585]"
      (MovieInfo.mk "Movie" none (some "tmdb") (some "585")) (by decide)
  · exact provider_movie_id_invariant.2.1 "Movie (1984)"
      (MovieInfo.mk "Movie" (some "1984") none none) (by decide)
  · exact provider_movie_id_invariant.2.2 (MovieInfo.mk "Movie" (some "1984") none none)
      (Or.inl rfl)

/-- C10 (counterexample): the title-only catch-all pattern does not match
every non-empty string — `.` cannot cross a newline, so this non-empty
name with an interior newline fails all five Convention A patterns
(none of their other pieces can bridge its newline either) and
`parse_movie_path` returns null, making the unparsable-folder skip branch
reachable.  (A newline does not always cause failure — `\s+` in the
earlier patterns can consume one, as in `"Movie\n(1984)"` — it merely
makes failure possible, as here.) -/
theorem jellyfin_parse_newline_counterexample :
    jellyfinParseMoviePath "a\nb" = none := by
  decide

/-- C10 (amended): for every non-empty folder name containing no newline
character, Convention A's `parse_movie_path` returns a non-null
`MovieInfo` — the final catch-all title-only pattern matches any such
name.  Hence null can only arise for names that are empty or contain a
newline, and the counterexample shows a newline name that does return
null. -/
theorem jellyfin_parse_total (s : String) (hne : s ≠ "")
    (hnl : ∀ c ∈ s.data, c ≠ '\n') :
    (jellyfinParseMoviePath s).isSome := by
  have hcore : titleOnlyMatch s = some ⟨s.data⟩ := by
    have hlast : s.data.getLast? ≠ some '\n' := by
      intro hl
      exact hnl '\n' (List.mem_of_mem_getLast? hl) rfl
    have hdata : s.data ≠ [] := by
      intro hd
      exact hne (by cases s; simp_all)
    simp only [titleOnlyMatch, if_neg hlast]
    rw [if_pos]
    refine ⟨hdata, ?_⟩
    rw [List.all_eq_true]
    intro c hc
    simpa [dotChar] using hnl c hc
  simp only [jellyfinParseMoviePath]
  split
  · simp
  · split
    · simp
    · split
      · simp
      · split
        · simp
        · rw [hcore]
          simp

/-- Witness for C10's amended theorem: a concrete newline-free name. -/
theorem jellyfin_parse_total_witness :
    (jellyfinParseMoviePath "A movie").isSome :=
  jellyfin_parse_total "A movie" (by decide) (by decide)

theorem sinsert_ne_nil (x : String) (l : List String) : sinsert x l ≠ [] := by
  cases l with
  | nil => simp [sinsert]
  | cons y rest =>
    simp only [sinsert]
    split_ifs <;> simp

theorem tagOptEnd_tag_ne (rest : List Char) (t : String)
    (h : tagOptEnd rest = some (some t)) : t ≠ "" := by
  cases rest with
  | nil => simp [tagOptEnd] at h
  | cons c r2 =>
    simp only [tagOptEnd] at h
    split_ifs at h with h1 h2 h3 h4
    · injection h with h'
      injection h' with h''
      subst h''
      intro hemp
      exact h2.1 (congrArg String.data hemp)
    all_goals simp_all

theorem match4k_tag_ne (w : String) (t : String) (h : match4k w = some (some t)) :
    t ≠ "" := by
  unfold match4k at h
  split at h
  · exact tagOptEnd_tag_ne _ _ h
  · exact Option.noConfusion h

theorem matchBD_tag_ne (w : String) (t : String) (h : matchBD w = some (some t)) :
    t ≠ "" := by
  unfold matchBD at h
  split at h
  · exact tagOptEnd_tag_ne _ _ h
  · exact Option.noConfusion h

theorem matchDVD_tag_ne (w : String) (t : String) (h : matchDVD w = some (some t)) :
    t ≠ "" := by
  unfold matchDVD at h
  split at h
  · exact tagOptEnd_tag_ne _ _ h
  · exact Option.noConfusion h

/-- `_match_resolution` computes exactly the resolution and tag set of the
claim's table description. -/
theorem matchResolution_eq_spec (w : String) :
    matchResolution w = (wordRes (matchWordSpec w), wordTags (matchWordSpec w)) := by
  unfold matchResolution resMapTags matchWordSpec
  cases h4 : match4k w with
  | some tag =>
    cases tag with
    | none => simp [wordRes, wordTags, mkSet]
    | some t =>
      have ht : t ≠ "" := match4k_tag_ne w t h4
      simp [wordRes, wordTags, mkSet, ht]
  | none =>
    cases hb : matchBD w with
    | some tag =>
      cases tag with
      | none => simp [wordRes, wordTags, mkSet]
      | some t =>
        have ht : t ≠ "" := matchBD_tag_ne w t hb
        simp [wordRes, wordTags, mkSet, ht]
    | none =>
      cases hd : matchDVD w with
      | some tag =>
        cases tag with
        | none => simp [wordRes, wordTags, mkSet]
        | some t =>
          have ht : t ≠ "" := matchDVD_tag_ne w t hd
          simp [wordRes, wordTags, mkSet, ht]
      | none =>
        cases hr : matchBareRes w with
        | some r => simp [wordRes, wordTags, mkSet]
        | none => simp [wordRes, wordTags, mkSet]

/-- The code's `if res or tags:` test succeeds exactly when the word
matched some pattern of the table. -/
theorem wordMatch_cond (m : WordMatch) :
    ((wordRes m).isSome = true ∨ wordTags m ≠ []) ↔ m ≠ WordMatch.noMatch := by
  cases m with
  | noMatch => simp [wordRes, wordTags]
  | res4k tag => cases tag <;> simp [wordRes, wordTags]
  | resBD tag => cases tag <;> simp [wordRes, wordTags]
  | resDVD tag =>
    cases tag with
    | none => simp [wordRes, wordTags, mkSet, sinsert]
    | some t =>
      simp only [wordRes, wordTags, mkSet, List.foldl]
      have := sinsert_ne_nil t (sinsert "DVD" [])
      simp_all
  | resBare r => simp [wordRes, wordTags]

/-- C4: `SninerVariantParser.parse` implements exactly the two-ended
matching the claim describes — split on spaces, try the ordered resolution
table (`4k`, `BD`, `DVD`, bare `\d{3,4}[pi]`, first match wins, trailing
`-tag`/`.tag` giving an extra tag) on the first word and use the rest as
edition; on failure retry the last word (when more than one word exists)
and use everything before it as edition; otherwise the whole variant is
edition text.  A first-word match takes precedence over a last-word
match. -/
theorem sniner_parse_matches_spec (variant : String) (video : VideoInfo) :
    sninerParse variant video = sninerParseSpec variant video := by
  unfold sninerParse sninerParseSpec
  simp only [matchResolution_eq_spec]
  rw [if_congr (wordMatch_cond (matchWordSpec ((pySplitSpace variant).headD ""))) rfl rfl]
  by_cases h1 : matchWordSpec ((pySplitSpace variant).headD "") ≠ WordMatch.noMatch
  · rw [if_pos h1, if_pos h1]
  · rw [if_neg h1, if_neg h1,
      if_congr (wordMatch_cond (matchWordSpec ((pySplitSpace variant).getLastD ""))) rfl rfl]
    by_cases hlen : 1 < (pySplitSpace variant).length
    · rw [if_pos hlen]
      by_cases h2 : matchWordSpec ((pySplitSpace variant).getLastD "") ≠ WordMatch.noMatch
      · have hs2 : 1 < (pySplitSpace variant).length ∧
            matchWordSpec ((pySplitSpace variant).getLastD "") ≠ WordMatch.noMatch :=
          ⟨hlen, h2⟩
        rw [if_pos h2, if_pos hs2]
      · have hs2 : ¬(1 < (pySplitSpace variant).length ∧
            matchWordSpec ((pySplitSpace variant).getLastD "") ≠ WordMatch.noMatch) :=
          fun hx => h2 hx.2
        rw [if_neg h2, if_neg hs2, not_not.mp h2]
        simp [wordRes, wordTags]
    · have hs2 : ¬(1 < (pySplitSpace variant).length ∧
          matchWordSpec ((pySplitSpace variant).getLastD "") ≠ WordMatch.noMatch) :=
        fun hx => hlen hx.1
      rw [if_neg hlen, if_neg hs2, not_not.mp h1]
      simp [wordRes, wordTags]

theorem getLast?_cons_form {α : Type} (a : α) (l : List α) :
    (a :: l).getLast? =
      (match l.getLast? with | some x => some x | none => some a) := by
  cases l with
  | nil => simp
  | cons b m =>
    cases hx : (b :: m).getLast? with
    | none => simp [List.getLast?_eq_none_iff] at hx
    | some x => simp [List.getLast?_cons_cons, hx]

/-- The provider/movie-id fold of `parse_movie_path` keeps exactly the last
recognized block (later recognized keys overwrite earlier ones); when no
block is recognized the initial values survive. -/
theorem plexMovieFold_char (blocks : List (String × String × String))
    (init : String × Option String × Option String) :
    (blocks.foldl plexMovieStep init).2 =
      (match lastRecognized blocks with
       | some b => (some (pyStrip (pyLower b.1)), some (pyStrip b.2.1))
       | none => init.2) := by
  induction blocks generalizing init with
  | nil => simp [lastRecognized]
  | cons b rest ih =>
    simp only [List.foldl_cons]
    rw [ih]
    by_cases hb : pyLower b.1 ∈ PLEX_METADATA_PROVIDER
    · simp only [lastRecognized]
      rw [List.filter_cons_of_pos (by simpa using hb), getLast?_cons_form]
      cases hLR : (List.filter (fun x => decide (pyLower x.1 ∈ PLEX_METADATA_PROVIDER)) rest).getLast? with
      | some b' => simp [hLR]
      | none => simp [plexMovieStep, hb, hLR]
    · simp only [lastRecognized]
      rw [List.filter_cons_of_neg (by simpa using hb)]
      have hstep : (plexMovieStep init b).2 = init.2 := by
        simp [plexMovieStep, hb]
      simp [hstep]

/-- The edition/provider fold of `parse_video_path` accumulates exactly one
`<provider>-<id>` entry per recognized block into the provider set;
blocks with unrecognized keys (and the `edition` key) contribute nothing. -/
theorem plexVideoFold_providers (blocks : List (String × String × String))
    (init : String × Option String × List String) :
    (blocks.foldl plexVideoMetaStep init).2.2 =
      ((blocks.filter (fun b => pyLower b.1 ∈ PLEX_METADATA_PROVIDER)).map
        (fun b => pyLower b.1 ++ "-" ++ b.2.1)).foldl
          (fun acc x => sinsert x acc) init.2.2 := by
  induction blocks generalizing init with
  | nil => simp
  | cons b rest ih =>
    simp only [List.foldl_cons, List.filter_cons]
    by_cases hb : pyLower b.1 ∈ PLEX_METADATA_PROVIDER
    · have hbe : pyLower b.1 ≠ "edition" := by
        intro he
        rw [he] at hb
        simp [PLEX_METADATA_PROVIDER] at hb
      rw [if_pos (by simpa using hb)]
      simp only [List.map_cons, List.foldl_cons]
      rw [ih]
      have hstep : (plexVideoMetaStep init b).2.2 =
          sinsert (pyLower b.1 ++ "-" ++ b.2.1) init.2.2 := by
        simp [plexVideoMetaStep, hbe, hb]
      rw [hstep]
    · rw [if_neg (by simpa using hb)]
      rw [ih]
      by_cases hbe : pyLower b.1 = "edition"
      · have hstep : (plexVideoMetaStep init b).2.2 = init.2.2 := by
          simp [plexVideoMetaStep, hbe]
        rw [hstep]
      · have hstep : (plexVideoMetaStep init b).2.2 = init.2.2 := by
          simp [plexVideoMetaStep, hbe, hb]
        rw [hstep]

/-- Every block reported by the `{key-value}` scan occurs verbatim inside
the scanned text. -/
theorem plexMetaBlocksF_infix (fuel : Nat) :
    ∀ (cs : List Char), ∀ b ∈ plexMetaBlocksF fuel cs, b.2.2.data <:+: cs := by
  induction fuel with
  | zero => intro cs b hb; simp [plexMetaBlocksF] at hb
  | succ fuel ih =>
    intro cs b hb
    cases cs with
    | nil => simp [plexMetaBlocksF] at hb
    | cons c rest =>
      simp only [plexMetaBlocksF] at hb
      by_cases hc : c = '{'
      · rw [if_pos hc] at hb
        subst hc
        split at hb
        · rename_i r2 hsp
          split at hb
          · split at hb
            · rename_i r4 hsv
              split at hb
              · have hsp' : List.dropWhile asciiLetter rest = '-' :: r2 := by
                  simpa [List.span_eq_take_drop] using hsp
                have hsv' : List.dropWhile notCloseBrace r2 = '}' :: r4 := by
                  simpa [List.span_eq_take_drop] using hsv
                have hrest : rest =
                    (List.span asciiLetter rest).1 ++
                      '-' :: ((List.span notCloseBrace r2).1 ++ '}' :: r4) := by
                  conv_lhs => rw [← List.takeWhile_append_dropWhile asciiLetter rest, hsp',
                    ← List.takeWhile_append_dropWhile notCloseBrace r2, hsv']
                  simp [List.span_eq_take_drop]
                rcases List.mem_cons.mp hb with hbk | hbk
                · subst hbk
                  refine ⟨[], r4, ?_⟩
                  simp only [List.nil_append]
                  conv_rhs => rw [hrest]
                  simp
                · have hinf := ih r4 b hbk
                  have hsuf : r4 <:+ '{' :: rest := by
                    refine ⟨'{' :: ((List.span asciiLetter rest).1 ++
                      '-' :: ((List.span notCloseBrace r2).1 ++ ['}'])), ?_⟩
                    conv_rhs => rw [hrest]
                    simp
                  exact hinf.trans hsuf.isInfix
              · exact List.infix_cons (ih rest b hb)
            · exact List.infix_cons (ih rest b hb)
          · exact List.infix_cons (ih rest b hb)
        · exact List.infix_cons (ih rest b hb)
      · rw [if_neg hc] at hb
        exact List.infix_cons (ih rest b hb)

/-- C6 (amended): for every Convention B name, a `{key-value}` block whose
key is not in the recognized provider set contributes no provider metadata
and raises no error — the movie parse's `provider`/`movie_id` come only
from the last recognized block, the video parse always succeeds and its
provider set holds exactly one entry per recognized block — and every
reported block occurs verbatim in the name; the block's matched
occurrences are deleted from the leftover by one global replace-all, but
that deletion may splice surrounding characters into a fresh copy of the
block text, which then survives in the title (see the counterexample). -/
theorem unknown_block_dropped :
    (∀ name m, plexParseMoviePath name = some m →
      m.provider =
        (lastRecognized (plexMetaBlocks name.data)).map (fun b => pyStrip (pyLower b.1)) ∧
      m.movie_id =
        (lastRecognized (plexMetaBlocks name.data)).map (fun b => pyStrip b.2.1)) ∧
    (∀ fileName, (plexParseVideoName fileName).isSome) ∧
    (∀ fileName v, plexParseVideoName fileName = some v →
      v.providers.getD [] =
        recognizedProviderSet (plexMetaBlocks (pyStem fileName).data)) ∧
    (∀ (cs : List Char), ∀ b ∈ plexMetaBlocks cs, b.2.2.data <:+: cs) := by
  refine ⟨?_, ?_, ?_, ?_⟩
  · intro name m h
    simp only [plexParseMoviePath] at h
    split at h
    · injection h with h'
      subst h'
      have := plexMovieFold_char (plexMetaBlocks name.data) (name, none, none)
      simp only [plexMovieScan]
      cases hLR : lastRecognized (plexMetaBlocks name.data) <;> simp_all
    · exact Option.noConfusion h
  · intro fileName
    simp [plexParseVideoName]
  · intro fileName v h
    simp only [plexParseVideoName] at h
    injection h with h'
    subst h'
    have hp := plexVideoFold_providers (plexMetaBlocks (pyStem fileName).data)
      (pyStem fileName, none, [])
    simp only [recognizedProviderSet, mkSet]
    split
    · rename_i hempty
      simp [← hp, hempty]
    · simpa using hp
  · intro cs b hb
    exact plexMetaBlocksF_infix cs.length cs b hb

/-- Witness for C6's amended theorem: a name whose only block has the
unrecognized key `foo` parses with no provider metadata, and a video name
with one recognized and one unrecognized block collects exactly the
recognized provider. -/
theorem unknown_block_dropped_witness :
    ((MovieInfo.mk "Movie" (some "1999") none none).provider =
        (lastRecognized (plexMetaBlocks ("Movie (1999) \x7bfoo-bar\x7d").data)).map
          (fun b => pyStrip (pyLower b.1))) ∧
    (VideoInfo.mk ".mkv" none none none (some ["imdb-tt1"])).providers.getD [] =
      recognizedProviderSet
        (plexMetaBlocks (pyStem "M (1999) \x7bfoo-bar\x7d \x7bimdb-tt1\x7d.mkv").data) := by
  constructor
  · exact (unknown_block_dropped.1 "Movie (1999) \x7bfoo-bar\x7d"
      (MovieInfo.mk "Movie" (some "1999") none none) (by decide)).1
  · exact unknown_block_dropped.2.2.1 "M (1999) \x7bfoo-bar\x7d \x7bimdb-tt1\x7d.mkv"
      (VideoInfo.mk ".mkv" none none none (some ["imdb-tt1"])) (by decide)

/-- C6 (counterexample): in `{a{a-b}-b}` the scan finds the single
unrecognized block `{a-b}`; replacing it splices the surrounding
characters into a fresh `{a-b}`, so the block text survives as the parsed
title — the block is not removed entirely from the leftover. -/
theorem unknown_block_counterexample :
    plexMetaBlocks ("\x7ba\x7ba-b\x7d-b\x7d").data = [("a", "b", "\x7ba-b\x7d")] ∧
    "a" ∉ PLEX_METADATA_PROVIDER ∧
    plexMovieLeftover "\x7ba\x7ba-b\x7d-b\x7d" = "\x7ba-b\x7d" ∧
    plexParseMoviePath "\x7ba\x7ba-b\x7d-b\x7d" =
      some (MovieInfo.mk "\x7ba-b\x7d" none none none) := by
  decide

theorem scanStep_inv (mn : MovieInfo → String) (processed : List ScanEntry)
    (st : ScanState) (e : ScanEntry) (h : ScanInv mn processed st) :
    ScanInv mn (processed ++ [e]) (scanStep mn st e) := by
  cases hf : processed.filter (fun x => decide (mn x.movie = mn e.movie)) with
  | nil =>
    have hsync0 : alistLookup (mn e.movie) st.sync = none := by
      have := (h (mn e.movie)).1
      simp only [syncExpected, hf] at this
      exact this
    have hstep : scanStep mn st e = ⟨st.sync ++ [(mn e.movie, some e)], st.conflicts⟩ := by
      simp [scanStep, hsync0]
    intro t
    rw [hstep]
    by_cases hte : mn e.movie = t
    · subst hte
      have hfe : (processed ++ [e]).filter (fun x => decide (mn x.movie = mn e.movie)) = [e] := by
        simp [List.filter_append, hf]
      constructor
      · rw [alistLookup_append]
        have := (h (mn e.movie)).1
        simp only [syncExpected, hf] at this
        simp [this, alistLookup, syncExpected, hfe]
      · have := (h (mn e.movie)).2
        simp only [conflictsExpected, hf] at this
        simp [this, conflictsExpected, hfe]
    · have hfe : (processed ++ [e]).filter (fun x => decide (mn x.movie = t)) =
          processed.filter (fun x => decide (mn x.movie = t)) := by
        simp [List.filter_append, hte]
      have hse : syncExpected mn (processed ++ [e]) t = syncExpected mn processed t := by
        simp only [syncExpected, hfe]
      have hce : conflictsExpected mn (processed ++ [e]) t =
          conflictsExpected mn processed t := by
        simp only [conflictsExpected, hfe]
      constructor
      · rw [alistLookup_append, hse]
        cases hx : alistLookup t st.sync with
        | some v =>
          simp only [hx]
          exact hx ▸ (h t).1
        | none =>
          simp only [hx, alistLookup, if_neg hte]
          exact hx ▸ (h t).1
      · rw [hce]
        exact (h t).2
  | cons e1 rest1 =>
    cases rest1 with
    | nil =>
      have hsync0 : alistLookup (mn e.movie) st.sync = some (some e1) := by
        have := (h (mn e.movie)).1
        simp only [syncExpected, hf] at this
        exact this
      have hconf0 : alistLookup (mn e.movie) st.conflicts = none := by
        have := (h (mn e.movie)).2
        simp only [conflictsExpected, hf] at this
        exact this
      have hstep : scanStep mn st e =
          ⟨alistSet (mn e.movie) none st.sync,
           alistSet (mn e.movie) [e1.name, e.name]
             (st.conflicts ++ [(mn e.movie, [e1.name])])⟩ := by
        simp only [scanStep, hsync0, hconf0]
        rw [alistLookup_append, hconf0]
        simp [alistLookup]
      intro t
      rw [hstep]
      by_cases hte : mn e.movie = t
      · subst hte
        have hfe : (processed ++ [e]).filter (fun x => decide (mn x.movie = mn e.movie)) =
            [e1, e] := by
          simp [List.filter_append, hf]
        constructor
        · rw [alistLookup_set_self]
          simp [syncExpected, hfe]
        · rw [alistLookup_set_self]
          simp [conflictsExpected, hfe]
      · have hfe : (processed ++ [e]).filter (fun x => decide (mn x.movie = t)) =
            processed.filter (fun x => decide (mn x.movie = t)) := by
          simp [List.filter_append, hte]
        have hse : syncExpected mn (processed ++ [e]) t = syncExpected mn processed t := by
          simp only [syncExpected, hfe]
        have hce : conflictsExpected mn (processed ++ [e]) t =
            conflictsExpected mn processed t := by
          simp only [conflictsExpected, hfe]
        constructor
        · rw [alistLookup_set_ne _ _ _ _ (fun hh => hte hh.symm), (h t).1, hse]
        · rw [alistLookup_set_ne _ _ _ _ (fun hh => hte hh.symm), alistLookup_append, hce]
          cases hx : alistLookup t st.conflicts with
          | some v =>
            simp only [hx]
            exact hx ▸ (h t).2
          | none =>
            simp only [hx, alistLookup, if_neg hte]
            exact hx ▸ (h t).2
    | cons e2 rest2 =>
      have hsync0 : alistLookup (mn e.movie) st.sync = some none := by
        have := (h (mn e.movie)).1
        simp only [syncExpected, hf] at this
        exact this
      have hconf0 : alistLookup (mn e.movie) st.conflicts =
          some ((e1 :: e2 :: rest2).map (·.name)) := by
        have := (h (mn e.movie)).2
        simp only [conflictsExpected, hf] at this
        exact this
      have hstep : scanStep mn st e =
          ⟨alistSet (mn e.movie) none st.sync,
           alistSet (mn e.movie) ((e1 :: e2 :: rest2).map (·.name) ++ [e.name])
             st.conflicts⟩ := by
        simp [scanStep, hsync0, hconf0]
      intro t
      rw [hstep]
      by_cases hte : mn e.movie = t
      · subst hte
        have hfe : (processed ++ [e]).filter (fun x => decide (mn x.movie = mn e.movie)) =
            e1 :: e2 :: rest2 ++ [e] := by
          simp [List.filter_append, hf]
        constructor
        · rw [alistLookup_set_self]
          simp [syncExpected, hfe]
        · rw [alistLookup_set_self]
          simp [conflictsExpected, hfe]
      · have hfe : (processed ++ [e]).filter (fun x => decide (mn x.movie = t)) =
            processed.filter (fun x => decide (mn x.movie = t)) := by
          simp [List.filter_append, hte]
        have hse : syncExpected mn (processed ++ [e]) t = syncExpected mn processed t := by
          simp only [syncExpected, hfe]
        have hce : conflictsExpected mn (processed ++ [e]) t =
            conflictsExpected mn processed t := by
          simp only [conflictsExpected, hfe]
        constructor
        · rw [alistLookup_set_ne _ _ _ _ (fun hh => hte hh.symm), (h t).1, hse]
        · rw [alistLookup_set_ne _ _ _ _ (fun hh => hte hh.symm), (h t).2, hce]

theorem scanFold_inv_aux (mn : MovieInfo → String) :
    ∀ (rest processed : List ScanEntry) (st : ScanState),
      ScanInv mn processed st →
      ScanInv mn (processed ++ rest) (rest.foldl (scanStep mn) st) := by
  intro rest
  induction rest with
  | nil => intro processed st h; simpa using h
  | cons e rest ih =>
    intro processed st h
    have := ih (processed ++ [e]) (scanStep mn st e) (scanStep_inv mn processed st e h)
    simpa using this

theorem scanFold_inv (mn : MovieInfo → String) (entries : List ScanEntry) :
    ScanInv mn entries (scanFold mn entries) := by
  have base : ScanInv mn [] ⟨[], []⟩ := by
    intro t
    simp [alistLookup, syncExpected, conflictsExpected]
  simpa using scanFold_inv_aux mn entries [] ⟨[], []⟩ base

theorem conflictsExpected_char (mn : MovieInfo → String) (entries : List ScanEntry)
    (t : String) :
    (∀ l, conflictsExpected mn entries t = some l →
      2 ≤ targetCount mn entries t ∧ l = conflictGroup mn entries t) ∧
    (2 ≤ targetCount mn entries t →
      conflictsExpected mn entries t = some (conflictGroup mn entries t)) := by
  cases hf : entries.filter (fun x => decide (mn x.movie = t)) with
  | nil =>
    constructor
    · intro l hl; simp [conflictsExpected, hf] at hl
    · intro h2; simp [targetCount, hf] at h2
  | cons e1 rest1 =>
    cases rest1 with
    | nil =>
      constructor
      · intro l hl; simp [conflictsExpected, hf] at hl
      · intro h2; simp [targetCount, hf] at h2
    | cons e2 rest2 =>
      constructor
      · intro l hl
        simp only [conflictsExpected, hf] at hl
        constructor
        · simp [targetCount, hf]
        · simp only [conflictGroup, hf]
          injection hl with hl'
          exact hl'.symm
      · intro _
        simp [conflictsExpected, conflictGroup, hf]

/-- C1: when two or more scanned source folders map to the same target
movie name, `scan_media_library` aborts the entire run — it yields no
`(source, target, movie)` triple and removes nothing — and its conflict
report is complete and exact: for every target name hit by two or more
source folders the report lists exactly those folders' names in scan
order, and every reported group is of that form. -/
theorem scan_collision_aborts (mn : MovieInfo → String) (entries : List ScanEntry)
    (sourceBase targetBase : String) (targetEntries : List String) (delete : Bool)
    (hbase : sourceBase ≠ targetBase)
    (t0 : String) (hdup : 2 ≤ targetCount mn entries t0) :
    ∃ r, scanMediaLibrary sourceBase targetBase mn entries targetEntries delete =
        Except.ok r ∧
      r.yielded = [] ∧ r.removed = [] ∧
      (∀ t, 2 ≤ targetCount mn entries t →
        alistLookup t r.conflicts = some (conflictGroup mn entries t)) ∧
      (∀ t l, alistLookup t r.conflicts = some l →
        2 ≤ targetCount mn entries t ∧ l = conflictGroup mn entries t) := by
  have hinv := scanFold_inv mn entries
  have hconfl : ∀ t, alistLookup t (scanFold mn entries).conflicts =
      conflictsExpected mn entries t := fun t => (hinv t).2
  have hne : (scanFold mn entries).conflicts ≠ [] := by
    intro hnil
    have := hconfl t0
    rw [hnil, (conflictsExpected_char mn entries t0).2 hdup] at this
    simp [alistLookup] at this
  refine ⟨⟨(scanFold mn entries).conflicts, [], []⟩, ?_, rfl, rfl, ?_, ?_⟩
  · simp only [scanMediaLibrary, if_neg hbase, if_pos hne]
  · intro t h2
    rw [hconfl t]
    exact (conflictsExpected_char mn entries t).2 h2
  · intro t l hl
    rw [hconfl t] at hl
    exact (conflictsExpected_char mn entries t).1 l hl

/-- Witness for C1: the spec's own conflict example — two distinct Plex
folder names (single versus double space) that normalize to the same
Jellyfin target name `Movie (2000)` — aborts the scan with both names
reported and nothing yielded or removed. -/
theorem scan_collision_aborts_witness :
    ∃ r, scanMediaLibrary "/plex" "/jellyfin" jellyfinMovieName
        [⟨"Movie (2000)", ⟨"Movie", some "2000", none, none⟩⟩,
         ⟨"Movie  (2000)", ⟨"Movie", some "2000", none, none⟩⟩]
        ["Stray (1999)"] true = Except.ok r ∧
      r.yielded = [] ∧ r.removed = [] ∧
      (∀ t, 2 ≤ targetCount jellyfinMovieName
          [⟨"Movie (2000)", ⟨"Movie", some "2000", none, none⟩⟩,
           ⟨"Movie  (2000)", ⟨"Movie", some "2000", none, none⟩⟩] t →
        alistLookup t r.conflicts = some (conflictGroup jellyfinMovieName
          [⟨"Movie (2000)", ⟨"Movie", some "2000", none, none⟩⟩,
           ⟨"Movie  (2000)", ⟨"Movie", some "2000", none, none⟩⟩] t)) ∧
      (∀ t l, alistLookup t r.conflicts = some l →
        2 ≤ targetCount jellyfinMovieName
          [⟨"Movie (2000)", ⟨"Movie", some "2000", none, none⟩⟩,
           ⟨"Movie  (2000)", ⟨"Movie", some "2000", none, none⟩⟩] t ∧
        l = conflictGroup jellyfinMovieName
          [⟨"Movie (2000)", ⟨"Movie", some "2000", none, none⟩⟩,
           ⟨"Movie  (2000)", ⟨"Movie", some "2000", none, none⟩⟩] t) :=
  scan_collision_aborts jellyfinMovieName
    [⟨"Movie (2000)", ⟨"Movie", some "2000", none, none⟩⟩,
     ⟨"Movie  (2000)", ⟨"Movie", some "2000", none, none⟩⟩]
    "/plex" "/jellyfin" ["Stray (1999)"] true (by decide)
    "Movie (2000)" (by decide)

end Jellyplex
